import Mathlib

/-!
Verification of the state-management layer of `model/model.py` from
`event_cnn_minimal`: the wrapper classes `WFlowNet`, `FlowNet`,
`FlowNetNoRecur`, `E2VIDRecurrent`, `EVFlowNet` and the helper
`copy_states`.

Tensor storage is modelled by an address heap so that aliasing and
storage-independence ("mutating the returned copy must never affect the
live state") are expressible.  A recurrent state entry is either absent
(`None`), a single tensor address (GRU), or a pair of tensor addresses
(LSTM), matching the docstring of `copy_states`.
-/

namespace EventCnn

/-- The payload held in one tensor's storage (abstract numeric content). -/
abbrev TVal := List Int

/-- The tensor store: a bump-allocating heap.  `next` is the first unused
address; `mem` gives the contents at every address. -/
structure Heap where
  next : Nat
  mem : Nat → TVal

/-- Allocate fresh storage holding `v`; returns the new heap and the
fresh address. -/
def Heap.alloc (h : Heap) (v : TVal) : Heap × Nat :=
  (⟨h.next + 1, fun a => if a = h.next then v else h.mem a⟩, h.next)

/-- Overwrite the storage at address `a` with `v` (models in-place
mutation of a tensor). -/
def Heap.write (h : Heap) (a : Nat) (v : TVal) : Heap :=
  ⟨h.next, fun x => if x = a then v else h.mem x⟩

/-- One entry of a recurrent state list, per the `copy_states` docstring:
`None`, a single tensor (GRU) or a pair of tensors (LSTM). -/
inductive SE where
  | absent : SE
  | single : Nat → SE
  | pair : Nat → Nat → SE
deriving DecidableEq, Repr

/-- The tensor addresses referenced by one state entry. -/
def SE.addrs : SE → List Nat
  | .absent => []
  | .single a => [a]
  | .pair a b => [a, b]

/-- Constructor shape of a state entry (absent vs single-tensor vs
tensor-pair), forgetting the storage it points to. -/
inductive SEKind where
  | absent : SEKind
  | single : SEKind
  | pair : SEKind
deriving DecidableEq, Repr

/-- The shape of a state entry. -/
def SE.kind : SE → SEKind
  | .absent => .absent
  | .single _ => .single
  | .pair _ _ => .pair

/-- All tensor addresses referenced by a state list. -/
def addrsOf (ss : List SE) : List Nat :=
  ss.flatMap SE.addrs

/-- The observable value of a state entry in heap `h`: nothing for an
absent entry, otherwise the stored tensor contents.  Two entries are
"structurally equal" when they read equal here. -/
def readEntry (h : Heap) : SE → Option (TVal ⊕ TVal × TVal)
  | .absent => none
  | .single a => some (.inl (h.mem a))
  | .pair a b => some (.inr (h.mem a, h.mem b))

/-- A state list is well formed in `h` when every address it references
was allocated (lies below the bump pointer). -/
def WFStates (h : Heap) (ss : List SE) : Prop :=
  ∀ a ∈ addrsOf ss, a < h.next

/-- Copy one state entry to fresh storage: absent stays absent, tensors
and tensor pairs are cloned to fresh addresses holding the same
contents. -/
def cloneEntry (h : Heap) : SE → Heap × SE
  | .absent => (h, .absent)
  | .single a => ((h.alloc (h.mem a)).1, .single (h.alloc (h.mem a)).2)
  | .pair a b =>
      (((h.alloc (h.mem a)).1.alloc (h.mem b)).1,
        .pair (h.alloc (h.mem a)).2 ((h.alloc (h.mem a)).1.alloc (h.mem b)).2)

/-- Model of `copy.deepcopy` on a recurrent state list: every tensor is
copied to fresh storage, absent entries stay absent.  (The memoisation
`deepcopy` performs for objects aliased inside one call is not needed by
any property below.) -/
def deepcopy (h : Heap) : List SE → Heap × List SE
  | [] => (h, [])
  | e :: es =>
      let p := cloneEntry h e
      let q := deepcopy p.1 es
      (q.1, p.2 :: q.2)

/-- Modelled from the spec: `recursive_clone` from `utils/myutil.py` is
imported by `model/model.py` but its source file is not present.  The
spec describes it as "a recursive clone that preserves pair/single-tensor
structure without sharing underlying storage", defined on populated
entries (tensors and tensor pairs); entries outside that vocabulary
(absent entries) are not supported and make the call fail. -/
def recursive_clone (h : Heap) : List SE → Option (Heap × List SE)
  | [] => some (h, [])
  | .absent :: _ => none
  | e :: es =>
      let p := cloneEntry h e
      match recursive_clone p.1 es with
      | none => none
      | some (h2, es2) => some (h2, p.2 :: es2)

/-- `copy_states` from `model/model.py` lines 12-19: inspect
`states[0]` (failing on an empty list), deep-copy when it is `None`,
otherwise recursively clone. -/
def copy_states (h : Heap) (states : List SE) : Option (Heap × List SE) :=
  match states with
  | [] => none
  | s :: _ =>
      if s = SE.absent then some (deepcopy h states)
      else recursive_clone h states

/-- A tensor value at the interface level: a shape and flattened
row-major contents.  Enough to state the shape and zero-fill properties
of `forward`. -/
structure Tensor where
  shape : List Nat
  data : List Int
deriving DecidableEq, Repr

/-- Python scalar multiplication `k * tensor`: elementwise, shape kept. -/
def smul (k : Int) (t : Tensor) : Tensor :=
  { shape := t.shape, data := t.data.map (fun v => k * v) }

/-- The slice `flow[..., 0:1, :, :]` of a 4-dimensional tensor
`N x C x H x W`: keeps channel 0 only, giving shape `N x 1 x H x W`.
(The claims only exercise 4-dimensional inputs, matching the documented
`N x num_bins x H x W` contract; other ranks are not modelled.) -/
def sliceChan01 (t : Tensor) : Tensor :=
  match t.shape with
  | [n, c, h, w] =>
      { shape := [n, 1, h, w],
        data := (List.range (n * h * w)).map (fun i =>
          t.data.getD (i / (h * w) * (c * h * w) + i % (h * w)) 0) }
  | _ => t

/-- Output of a `forward` call: a Python dict from key to tensor,
modelled as an association list in insertion order. -/
abbrev OutDict := List (String × Tensor)

/-- Lookup in an output dict. -/
def dictGet (d : OutDict) (k : String) : Option Tensor :=
  match d with
  | [] => none
  | (k2, v) :: rest => if k = k2 then some v else dictGet rest k

/-- A Python value stored in `unet_kwargs`: int, string, bool or
`None`. -/
inductive KVal where
  | i : Int → KVal
  | s : String → KVal
  | b : Bool → KVal
  | null : KVal
deriving DecidableEq, Repr

/-- A Python keyword dictionary, as a total lookup function. -/
def Kwargs := String → Option KVal

/-- `d[k] = v` on a Python dict. -/
def dictSet (d : Kwargs) (k : String) (v : KVal) : Kwargs :=
  fun q => if q = k then some v else d q

/-- `d.update(ps)` on a Python dict: assign each pair in order. -/
def dictUpdate (d : Kwargs) (ps : List (String × KVal)) : Kwargs :=
  ps.foldl (fun acc p => dictSet acc p.1 p.2) d

/-! ### Wrapped networks

The wrapped encoder-decoder networks (`WNet`, `UNetFlow`,
`UNetFlowNoRecur`, `UNetRecurrent`, `UNet` from `model/unet.py`) are
imported by `model/model.py` but their source file is not present.
Modelled from the spec: each recurrent wrapped component holds "a
mutable ordered sequence of per-encoder hidden states" and an encoder
count copied from configuration, and `forward` "delegates entirely to
the wrapped component"; the wrapped transformation itself is an
arbitrary function field, constrained only by hypotheses in theorems. -/

/-- Modelled from the spec: the `WNet` wrapped network (source
`model/unet.py` not present): encoder count, per-encoder recurrent
state list, and an abstract forward transformation. -/
structure WNet where
  num_encoders : Nat
  states : List SE
  forwardFun : Tensor → OutDict

/-- Modelled from the spec: the `UNetFlow` wrapped network (source
`model/unet.py` not present). -/
structure UNetFlow where
  num_encoders : Nat
  states : List SE
  forwardFun : Tensor → OutDict

/-- Modelled from the spec: the `UNetRecurrent` wrapped network (source
`model/unet.py` not present). -/
structure UNetRecurrent where
  num_encoders : Nat
  states : List SE
  forwardFun : Tensor → OutDict

/-- Modelled from the spec: the non-recurrent `UNetFlowNoRecur` wrapped
network (source `model/unet.py` not present): no state, just the
abstract forward transformation. -/
structure UNetFlowNoRecur where
  forwardFun : Tensor → OutDict

/-- Modelled from the spec: the `UNet` wrapped network used by
`EVFlowNet` (source `model/unet.py` not present): its forward produces
a single flow tensor. -/
structure UNet where
  forwardFun : Tensor → Tensor

/-! ### Wrapper classes from `model/model.py` -/

/-- `WFlowNet` (`model/model.py` lines 22-50): legacy config copies and
the wrapped `WNet`. -/
structure WFlowNet where
  num_bins : KVal
  num_encoders : KVal
  wnet : WNet

/-- `WFlowNet.reset_states`: `self.wnet.states = [None] * self.wnet.num_encoders`. -/
def WFlowNet.reset_states (m : WFlowNet) : WFlowNet :=
  { m with wnet := { m.wnet with states := List.replicate m.wnet.num_encoders SE.absent } }

/-- `WFlowNet.states` getter: `copy_states(self.wnet.states)`. -/
def WFlowNet.statesGet (h : Heap) (m : WFlowNet) : Option (Heap × List SE) :=
  copy_states h m.wnet.states

/-- `WFlowNet.states` setter: `self.wnet.states = states`. -/
def WFlowNet.statesSet (m : WFlowNet) (states : List SE) : WFlowNet :=
  { m with wnet := { m.wnet with states := states } }

/-- `WFlowNet.forward`: `self.wnet.forward(event_tensor)`. -/
def WFlowNet.forward (m : WFlowNet) (event_tensor : Tensor) : OutDict :=
  m.wnet.forwardFun event_tensor

/-- `FlowNet` (`model/model.py` lines 53-81): wraps `UNetFlow`. -/
structure FlowNet where
  num_bins : KVal
  num_encoders : KVal
  unetflow : UNetFlow

/-- `FlowNet.states` getter: `copy_states(self.unetflow.states)`. -/
def FlowNet.statesGet (h : Heap) (m : FlowNet) : Option (Heap × List SE) :=
  copy_states h m.unetflow.states

/-- `FlowNet.states` setter: `self.unetflow.states = states`. -/
def FlowNet.statesSet (m : FlowNet) (states : List SE) : FlowNet :=
  { m with unetflow := { m.unetflow with states := states } }

/-- `FlowNet.reset_states`: `self.unetflow.states = [None] * self.unetflow.num_encoders`. -/
def FlowNet.reset_states (m : FlowNet) : FlowNet :=
  { m with unetflow := { m.unetflow with states := List.replicate m.unetflow.num_encoders SE.absent } }

/-- `FlowNet.forward`: `self.unetflow.forward(event_tensor)`. -/
def FlowNet.forward (m : FlowNet) (event_tensor : Tensor) : OutDict :=
  m.unetflow.forwardFun event_tensor

/-- `FlowNetNoRecur` (`model/model.py` lines 84-104): wraps
`UNetFlowNoRecur`; no recurrent state, no `states` property. -/
structure FlowNetNoRecur where
  num_bins : KVal
  num_encoders : KVal
  unetflow : UNetFlowNoRecur

/-- `FlowNetNoRecur.reset_states`: `pass` — it touches neither the heap
nor the model. -/
def FlowNetNoRecur.reset_states (h : Heap) (m : FlowNetNoRecur) : Heap × FlowNetNoRecur :=
  (h, m)

/-- `FlowNetNoRecur.forward`: `self.unetflow.forward(event_tensor)`. -/
def FlowNetNoRecur.forward (m : FlowNetNoRecur) (event_tensor : Tensor) : OutDict :=
  m.unetflow.forwardFun event_tensor

/-- `E2VIDRecurrent` (`model/model.py` lines 107-136): wraps
`UNetRecurrent`. -/
structure E2VIDRecurrent where
  num_bins : KVal
  num_encoders : KVal
  unetrecurrent : UNetRecurrent

/-- `E2VIDRecurrent.states` getter: `copy_states(self.unetrecurrent.states)`. -/
def E2VIDRecurrent.statesGet (h : Heap) (m : E2VIDRecurrent) : Option (Heap × List SE) :=
  copy_states h m.unetrecurrent.states

/-- `E2VIDRecurrent.states` setter: `self.unetrecurrent.states = states`. -/
def E2VIDRecurrent.statesSet (m : E2VIDRecurrent) (states : List SE) : E2VIDRecurrent :=
  { m with unetrecurrent := { m.unetrecurrent with states := states } }

/-- `E2VIDRecurrent.reset_states`:
`self.unetrecurrent.states = [None] * self.unetrecurrent.num_encoders`. -/
def E2VIDRecurrent.reset_states (m : E2VIDRecurrent) : E2VIDRecurrent :=
  { m with unetrecurrent :=
      { m.unetrecurrent with states := List.replicate m.unetrecurrent.num_encoders SE.absent } }

/-- `E2VIDRecurrent.forward`: `self.unetrecurrent.forward(event_tensor)`. -/
def E2VIDRecurrent.forward (m : E2VIDRecurrent) (event_tensor : Tensor) : OutDict :=
  m.unetrecurrent.forwardFun event_tensor

/-- `EVFlowNet` (`model/model.py` lines 139-173): wraps `UNet`. -/
structure EVFlowNet where
  num_bins : KVal
  num_encoders : KVal
  unet : UNet

/-- The hardcoded `EVFlowNet_kwargs` dict literal from
`EVFlowNet.__init__` (`model/model.py` lines 147-158), in source
order. -/
def EVFlowNet_kwargs : List (String × KVal) :=
  [("base_num_channels", .i 32),
   ("num_encoders", .i 4),
   ("num_residual_blocks", .i 2),
   ("num_output_channels", .i 2),
   ("skip_type", .s "concat"),
   ("norm", .null),
   ("use_upsample_conv", .b true),
   ("kernel_size", .i 3),
   ("channel_multiplier", .i 2)]

/-- `EVFlowNet.__init__`: `unet_kwargs.update(EVFlowNet_kwargs)` mutates
the caller's dict in place, then `num_bins`/`num_encoders` are read from
the updated dict (`KeyError`, hence `none`, if `num_bins` is missing)
and the wrapped `UNet` is built from it.  The `UNet` constructor lives
in the absent `model/unet.py`, so it is passed as a parameter.  The
returned `Kwargs` is the (shared, now-mutated) caller dictionary. -/
def EVFlowNet.init (mkUnet : Kwargs → UNet) (unet_kwargs : Kwargs) :
    Option (Kwargs × EVFlowNet) :=
  let kw := dictUpdate unet_kwargs EVFlowNet_kwargs
  match kw "num_bins" with
  | none => none
  | some nb =>
      match kw "num_encoders" with
      | none => none
      | some ne => some (kw, { num_bins := nb, num_encoders := ne, unet := mkUnet kw })

/-- `EVFlowNet.reset_states`: `pass`. -/
def EVFlowNet.reset_states (h : Heap) (m : EVFlowNet) : Heap × EVFlowNet :=
  (h, m)

/-- `EVFlowNet.forward`: computes `flow = self.unet.forward(event_tensor)`
and returns the dict `{'flow': flow, 'image': 0 * flow[..., 0:1, :, :]}`. -/
def EVFlowNet.forward (m : EVFlowNet) (event_tensor : Tensor) : OutDict :=
  let flow := m.unet.forwardFun event_tensor
  [("flow", flow), ("image", smul 0 (sliceChan01 flow))]

/-- The five model variants of `model/model.py`, for claims quantifying
over "every variant". -/
inductive Model where
  | wflow : WFlowNet → Model
  | flow : FlowNet → Model
  | flowNoRecur : FlowNetNoRecur → Model
  | e2vid : E2VIDRecurrent → Model
  | evflow : EVFlowNet → Model

/-- Variant-level `reset_states` dispatch (heap passed through; the
non-recurrent variants' `pass` bodies leave it untouched, the recurrent
ones allocate nothing either). -/
def Model.reset_states (h : Heap) : Model → Heap × Model
  | .wflow m => (h, .wflow m.reset_states)
  | .flow m => (h, .flow m.reset_states)
  | .flowNoRecur m => ((m.reset_states h).1, .flowNoRecur (m.reset_states h).2)
  | .e2vid m => (h, .e2vid m.reset_states)
  | .evflow m => ((m.reset_states h).1, .evflow (m.reset_states h).2)

/-- Variant-level read of the `states` attribute.  `WFlowNet`,
`FlowNet` and `E2VIDRecurrent` define a `states` property delegating to
`copy_states`; `FlowNetNoRecur` and `EVFlowNet` define no such property
and no `states` attribute is ever set on them, so the attribute lookup
raises `AttributeError` — modelled as `none`. -/
def Model.readStates (h : Heap) : Model → Option (Heap × List SE)
  | .wflow m => m.statesGet h
  | .flow m => m.statesGet h
  | .flowNoRecur _ => none
  | .e2vid m => m.statesGet h
  | .evflow _ => none

/-! ### Lemmas about cloning and the heap -/

/-- A state list on which the `states` getter can run to completion:
non-empty (else `states[0]` raises) and either headed by `None` (the
deep-copy branch) or containing no `None` at all (so the recursive
clone, defined on tensors and pairs only, succeeds). -/
def GetOk (ss : List SE) : Prop :=
  ss ≠ [] ∧ (ss.head? = some SE.absent ∨ ∀ x ∈ ss, x ≠ SE.absent)

instance (ss : List SE) : Decidable (GetOk ss) := by
  unfold GetOk
  infer_instance

instance (h : Heap) (ss : List SE) : Decidable (WFStates h ss) := by
  unfold WFStates
  infer_instance

/-- A tensor with batch dimension `N` and spatial dimensions `H x W`
(4-dimensional, any channel count). -/
def hasNHW (N H W : Nat) (t : Tensor) : Prop :=
  t.shape.length = 4 ∧ t.shape.getD 0 0 = N ∧ t.shape.getD 2 0 = H ∧ t.shape.getD 3 0 = W

instance (N H W : Nat) (t : Tensor) : Decidable (hasNHW N H W t) := by
  unfold hasNHW
  infer_instance

/-- An output dict containing at least one of the documented keys
`image` / `flow`, all of whose tensors have batch dimension `N` and
spatial dimensions `H x W`. -/
def dictNHW (N H W : Nat) (d : OutDict) : Prop :=
  (dictGet d "image" ≠ none ∨ dictGet d "flow" ≠ none) ∧ ∀ kv ∈ d, hasNHW N H W kv.2

instance (N H W : Nat) (d : OutDict) : Decidable (dictNHW N H W d) := by
  unfold dictNHW
  infer_instance

/-! ### Concrete instances used by witnesses and counterexamples -/

/-- A small example heap: two allocated tensors, at addresses 0 and 1. -/
def hEx : Heap := ⟨2, fun a => [(a : Int)]⟩

/-- Example wrapped `WNet` with one encoder holding an LSTM state pair. -/
def wnetEx : WNet := ⟨1, [SE.pair 0 1], fun _ => []⟩

/-- Example `WFlowNet`. -/
def wflowEx : WFlowNet := ⟨KVal.i 5, KVal.i 1, wnetEx⟩

/-- Example `WFlowNet` whose live state list is empty. -/
def wflowEmptyEx : WFlowNet := ⟨KVal.i 5, KVal.i 0, ⟨0, [], fun _ => []⟩⟩

/-- Example `FlowNet` with one encoder holding a GRU state tensor. -/
def flownetEx : FlowNet := ⟨KVal.i 5, KVal.i 1, ⟨1, [SE.single 0], fun _ => []⟩⟩

/-- Example `FlowNet` whose live state list is empty. -/
def flownetEmptyEx : FlowNet := ⟨KVal.i 5, KVal.i 0, ⟨0, [], fun _ => []⟩⟩

/-- Example `E2VIDRecurrent` with two encoders holding GRU states. -/
def e2vidEx : E2VIDRecurrent := ⟨KVal.i 5, KVal.i 2, ⟨2, [SE.single 0, SE.single 1], fun _ => []⟩⟩

/-- Example `E2VIDRecurrent` whose live state list is empty. -/
def e2vidEmptyEx : E2VIDRecurrent := ⟨KVal.i 5, KVal.i 0, ⟨0, [], fun _ => []⟩⟩

/-- Example `FlowNetNoRecur` configured with two encoders. -/
def noRecurEx : FlowNetNoRecur := ⟨KVal.i 5, KVal.i 2, ⟨fun _ => []⟩⟩

/-- Example `UNet`: maps any input to a fixed `1 x 2 x 2 x 2` flow. -/
def unetEx : UNet := ⟨fun _ => ⟨[1, 2, 2, 2], [1, 2, 3, 4, 5, 6, 7, 8]⟩⟩

/-- Example `EVFlowNet`. -/
def evflowEx : EVFlowNet := ⟨KVal.i 5, KVal.i 4, unetEx⟩

/-- Example event tensor of shape `1 x 3 x 2 x 2`. -/
def tEx : Tensor := ⟨[1, 3, 2, 2], [1, 1, 1, 1, 2, 2, 2, 2, 3, 3, 3, 3]⟩

/-- Example caller kwargs: `num_bins = 5`, `num_encoders = 7`. -/
def kwEx : Kwargs := fun k =>
  if k = "num_bins" then some (KVal.i 5)
  else if k = "num_encoders" then some (KVal.i 7)
  else none

/-! ### Lemmas about cloning, the heap, and the two copy strategies -/

theorem addrsOf_nil : addrsOf [] = [] := rfl

theorem addrsOf_cons (e : SE) (es : List SE) :
    addrsOf (e :: es) = e.addrs ++ addrsOf es := rfl

theorem mem_addrsOf_cons {a : Nat} {e : SE} {es : List SE} :
    a ∈ addrsOf (e :: es) ↔ a ∈ e.addrs ∨ a ∈ addrsOf es := by
  rw [addrsOf_cons]
  exact List.mem_append

theorem readEntry_congr {h1 h2 : Heap} {e : SE}
    (hmem : ∀ a ∈ e.addrs, h1.mem a = h2.mem a) :
    readEntry h1 e = readEntry h2 e := by
  cases e with
  | absent => rfl
  | single a => simp [readEntry, hmem a (by simp [SE.addrs])]
  | pair a b =>
      simp [readEntry, hmem a (by simp [SE.addrs]), hmem b (by simp [SE.addrs])]

theorem cloneEntry_next_le (h : Heap) (e : SE) :
    h.next ≤ (cloneEntry h e).1.next := by
  cases e with
  | absent => exact le_refl _
  | single a => simp [cloneEntry, Heap.alloc]
  | pair a b =>
      simp [cloneEntry, Heap.alloc]
      omega

theorem cloneEntry_mem_lt (h : Heap) (e : SE) {a : Nat} (ha : a < h.next) :
    (cloneEntry h e).1.mem a = h.mem a := by
  have hne : a ≠ h.next := Nat.ne_of_lt ha
  have hne2 : a ≠ h.next + 1 := by omega
  cases e with
  | absent => rfl
  | single b => simp [cloneEntry, Heap.alloc, hne]
  | pair b c => simp [cloneEntry, Heap.alloc, hne, hne2]

theorem cloneEntry_addrs (h : Heap) (e : SE) :
    ∀ a ∈ (cloneEntry h e).2.addrs, h.next ≤ a ∧ a < (cloneEntry h e).1.next := by
  cases e with
  | absent => simp [cloneEntry, SE.addrs]
  | single a => simp [cloneEntry, Heap.alloc, SE.addrs]
  | pair a b =>
      intro x hx
      simp only [cloneEntry, Heap.alloc, SE.addrs, List.mem_cons,
        List.not_mem_nil, or_false] at hx
      rcases hx with rfl | rfl
      · simp [cloneEntry, Heap.alloc]
        omega
      · simp [cloneEntry, Heap.alloc]

theorem cloneEntry_kind (h : Heap) (e : SE) : (cloneEntry h e).2.kind = e.kind := by
  cases e <;> rfl

theorem cloneEntry_read (h : Heap) (e : SE) :
    readEntry (cloneEntry h e).1 (cloneEntry h e).2 = readEntry h e := by
  cases e with
  | absent => rfl
  | single a => simp [cloneEntry, Heap.alloc, readEntry]
  | pair a b =>
      simp only [cloneEntry, Heap.alloc, readEntry]
      have hne : h.next ≠ h.next + 1 := by omega
      simp [hne]

theorem deepcopy_next_le (h : Heap) (ss : List SE) :
    h.next ≤ (deepcopy h ss).1.next := by
  induction ss generalizing h with
  | nil => simp [deepcopy]
  | cons e es ih =>
      simp only [deepcopy]
      exact le_trans (cloneEntry_next_le h e) (ih (cloneEntry h e).1)

theorem deepcopy_mem_lt (h : Heap) (ss : List SE) {a : Nat} (ha : a < h.next) :
    (deepcopy h ss).1.mem a = h.mem a := by
  induction ss generalizing h with
  | nil => simp [deepcopy]
  | cons e es ih =>
      simp only [deepcopy]
      rw [ih (cloneEntry h e).1 (lt_of_lt_of_le ha (cloneEntry_next_le h e))]
      exact cloneEntry_mem_lt h e ha

theorem deepcopy_addrs (h : Heap) (ss : List SE) :
    ∀ a ∈ addrsOf (deepcopy h ss).2, h.next ≤ a ∧ a < (deepcopy h ss).1.next := by
  induction ss generalizing h with
  | nil => simp [deepcopy, addrsOf]
  | cons e es ih =>
      intro a ha
      simp only [deepcopy] at ha ⊢
      rcases mem_addrsOf_cons.mp ha with ha | ha
      · have := cloneEntry_addrs h e a ha
        exact ⟨this.1, lt_of_lt_of_le this.2 (deepcopy_next_le (cloneEntry h e).1 es)⟩
      · have := ih (cloneEntry h e).1 a ha
        exact ⟨le_trans (cloneEntry_next_le h e) this.1, this.2⟩

theorem deepcopy_kind (h : Heap) (ss : List SE) :
    (deepcopy h ss).2.map SE.kind = ss.map SE.kind := by
  induction ss generalizing h with
  | nil => simp [deepcopy]
  | cons e es ih => simp [deepcopy, cloneEntry_kind, ih]

theorem deepcopy_length (h : Heap) (ss : List SE) :
    (deepcopy h ss).2.length = ss.length := by
  have := congrArg List.length (deepcopy_kind h ss)
  simpa using this

/-- Pointwise congruence for reading a state list in two heaps that
agree on its footprint. -/
theorem readStates_congr {h1 h2 : Heap} {ss : List SE}
    (hmem : ∀ a ∈ addrsOf ss, h1.mem a = h2.mem a) :
    ss.map (readEntry h1) = ss.map (readEntry h2) := by
  induction ss with
  | nil => rfl
  | cons e es ih =>
      simp only [List.map_cons]
      have hhead : ∀ a ∈ e.addrs, h1.mem a = h2.mem a := fun a ha =>
        hmem a (mem_addrsOf_cons.mpr (Or.inl ha))
      have htail : ∀ a ∈ addrsOf es, h1.mem a = h2.mem a := fun a ha =>
        hmem a (mem_addrsOf_cons.mpr (Or.inr ha))
      rw [readEntry_congr hhead, ih htail]

theorem deepcopy_read (h : Heap) (ss : List SE) (hwf : WFStates h ss) :
    (deepcopy h ss).2.map (readEntry (deepcopy h ss).1) = ss.map (readEntry h) := by
  induction ss generalizing h with
  | nil => simp [deepcopy]
  | cons e es ih =>
      have hwfe : ∀ a ∈ e.addrs, a < h.next := fun a ha =>
        hwf a (mem_addrsOf_cons.mpr (Or.inl ha))
      have hwfes : WFStates h es := fun a ha =>
        hwf a (mem_addrsOf_cons.mpr (Or.inr ha))
      have hwfes' : WFStates (cloneEntry h e).1 es := fun a ha =>
        lt_of_lt_of_le (hwfes a ha) (cloneEntry_next_le h e)
      simp only [deepcopy, List.map_cons]
      congr 1
      · have hpres : readEntry (deepcopy (cloneEntry h e).1 es).1 (cloneEntry h e).2 =
            readEntry (cloneEntry h e).1 (cloneEntry h e).2 := by
          apply readEntry_congr
          intro a ha
          exact deepcopy_mem_lt (cloneEntry h e).1 es (cloneEntry_addrs h e a ha).2
        rw [hpres, cloneEntry_read]
      · rw [ih (cloneEntry h e).1 hwfes']
        apply readStates_congr
        intro a ha
        exact cloneEntry_mem_lt h e (hwfes a ha)

theorem recursive_clone_eq_deepcopy (h : Heap) (ss : List SE)
    (hpop : ∀ e ∈ ss, e ≠ SE.absent) :
    recursive_clone h ss = some (deepcopy h ss) := by
  induction ss generalizing h with
  | nil => simp [recursive_clone, deepcopy]
  | cons e es ih =>
      have he : e ≠ SE.absent := hpop e (by simp)
      have ihe : recursive_clone (cloneEntry h e).1 es = some (deepcopy (cloneEntry h e).1 es) :=
        ih (cloneEntry h e).1 (fun x hx => hpop x (by simp [hx]))
      cases e with
      | absent => exact absurd rfl he
      | single a => simp [recursive_clone, deepcopy, ihe]
      | pair a b => simp [recursive_clone, deepcopy, ihe]

theorem copy_states_eq_deepcopy (h : Heap) (e : SE) (es : List SE)
    (hcase : e = SE.absent ∨ ∀ x ∈ e :: es, x ≠ SE.absent) :
    copy_states h (e :: es) = some (deepcopy h (e :: es)) := by
  rcases hcase with hc | hc
  · simp [copy_states, hc]
  · have he : e ≠ SE.absent := hc e (by simp)
    simp [copy_states, he, recursive_clone_eq_deepcopy h (e :: es) hc]

theorem copy_states_nil (h : Heap) : copy_states h [] = none := rfl

theorem deepcopy_replicate_absent (h : Heap) (n : Nat) :
    deepcopy h (List.replicate n SE.absent) = (h, List.replicate n SE.absent) := by
  induction n with
  | zero => simp [deepcopy]
  | succ k ih => simp [List.replicate_succ, deepcopy, cloneEntry, ih]

theorem copy_states_replicate_absent (h : Heap) (n : Nat) (hn : 0 < n) :
    copy_states h (List.replicate n SE.absent) = some (h, List.replicate n SE.absent) := by
  cases n with
  | zero => omega
  | succ k =>
      rw [List.replicate_succ]
      rw [copy_states_eq_deepcopy h SE.absent (List.replicate k SE.absent) (Or.inl rfl)]
      rw [← List.replicate_succ, deepcopy_replicate_absent]

theorem readEntry_write {h : Heap} {e : SE} {a : Nat} {v : TVal}
    (ha : a ∉ e.addrs) : readEntry (h.write a v) e = readEntry h e := by
  apply readEntry_congr
  intro x hx
  have : x ≠ a := fun hxa => ha (hxa ▸ hx)
  simp [Heap.write, this]

/-- Writing at an address outside a state list's footprint leaves every
entry's observable value unchanged. -/
theorem readStates_write {h : Heap} {ss : List SE} {a : Nat} {v : TVal}
    (ha : a ∉ addrsOf ss) :
    ss.map (readEntry (h.write a v)) = ss.map (readEntry h) := by
  induction ss with
  | nil => rfl
  | cons e es ih =>
      have hhead : a ∉ e.addrs := fun hx => ha (mem_addrsOf_cons.mpr (Or.inl hx))
      have htail : a ∉ addrsOf es := fun hx => ha (mem_addrsOf_cons.mpr (Or.inr hx))
      simp only [List.map_cons]
      rw [readEntry_write hhead, ih htail]

theorem deepcopy_all_absent (h : Heap) (ss : List SE)
    (habs : ∀ e ∈ ss, e = SE.absent) : deepcopy h ss = (h, ss) := by
  induction ss with
  | nil => rfl
  | cons e es ih =>
      have he : e = SE.absent := habs e (by simp)
      subst he
      have := ih (fun x hx => habs x (by simp [hx]))
      simp [deepcopy, cloneEntry, this]

theorem copy_states_getok (h : Heap) (ss : List SE) (hok : GetOk ss) :
    copy_states h ss = some (deepcopy h ss) := by
  obtain ⟨hne, hc⟩ := hok
  cases ss with
  | nil => exact absurd rfl hne
  | cons e es =>
      apply copy_states_eq_deepcopy
      rcases hc with hc | hc
      · left
        simpa using hc
      · right
        exact hc

/-- Central getter specification: on a well-formed, runnable state
list, `copy_states` succeeds and returns a structurally equal copy whose
tensor storage is entirely fresh, so that writing through any address of
the copy leaves every entry of the original list reading unchanged. -/
theorem copy_states_spec (h : Heap) (ss : List SE)
    (hwf : WFStates h ss) (hok : GetOk ss) :
    ∃ h2 cp, copy_states h ss = some (h2, cp) ∧
      cp.map (readEntry h2) = ss.map (readEntry h) ∧
      cp.map SE.kind = ss.map SE.kind ∧
      (∀ a ∈ addrsOf cp, a ∉ addrsOf ss) ∧
      (∀ a ∈ addrsOf cp, ∀ v : TVal,
        ss.map (readEntry (Heap.write h2 a v)) = ss.map (readEntry h)) := by
  refine ⟨(deepcopy h ss).1, (deepcopy h ss).2, copy_states_getok h ss hok, ?_, ?_, ?_, ?_⟩
  · exact deepcopy_read h ss hwf
  · exact deepcopy_kind h ss
  · intro a ha hmem
    exact absurd (hwf a hmem) (Nat.not_lt.mpr (deepcopy_addrs h ss a ha).1)
  · intro a ha v
    have hfresh : h.next ≤ a := (deepcopy_addrs h ss a ha).1
    apply readStates_congr
    intro x hx
    have hxlt : x < h.next := hwf x hx
    have hxa : x ≠ a := by omega
    show (if x = a then v else (deepcopy h ss).1.mem x) = h.mem x
    rw [if_neg hxa]
    exact deepcopy_mem_lt h ss hxlt

/-! ### Claims -/

/-- C1: for every recurrent wrapper (`WFlowNet`, `FlowNet`,
`E2VIDRecurrent`) and every live state sequence (well formed and
runnable), reading the `states` property returns a copy that is
structurally equal to the live sequence but shares no storage with it:
writing through any address of the returned copy leaves the live state
sequence reading unchanged. -/
theorem c1_states_getter_independent_copy :
    (∀ (h : Heap) (m : WFlowNet), WFStates h m.wnet.states → GetOk m.wnet.states →
      ∃ h2 cp, m.statesGet h = some (h2, cp) ∧
        cp.map (readEntry h2) = m.wnet.states.map (readEntry h) ∧
        ∀ a ∈ addrsOf cp, ∀ v : TVal,
          m.wnet.states.map (readEntry (Heap.write h2 a v)) =
            m.wnet.states.map (readEntry h)) ∧
    (∀ (h : Heap) (m : FlowNet), WFStates h m.unetflow.states → GetOk m.unetflow.states →
      ∃ h2 cp, m.statesGet h = some (h2, cp) ∧
        cp.map (readEntry h2) = m.unetflow.states.map (readEntry h) ∧
        ∀ a ∈ addrsOf cp, ∀ v : TVal,
          m.unetflow.states.map (readEntry (Heap.write h2 a v)) =
            m.unetflow.states.map (readEntry h)) ∧
    (∀ (h : Heap) (m : E2VIDRecurrent), WFStates h m.unetrecurrent.states →
      GetOk m.unetrecurrent.states →
      ∃ h2 cp, m.statesGet h = some (h2, cp) ∧
        cp.map (readEntry h2) = m.unetrecurrent.states.map (readEntry h) ∧
        ∀ a ∈ addrsOf cp, ∀ v : TVal,
          m.unetrecurrent.states.map (readEntry (Heap.write h2 a v)) =
            m.unetrecurrent.states.map (readEntry h)) := by
  refine ⟨?_, ?_, ?_⟩ <;>
    · intro h m hwf hok
      obtain ⟨h2, cp, hcs, hread, _, _, hwrite⟩ := copy_states_spec _ _ hwf hok
      exact ⟨h2, cp, hcs, hread, hwrite⟩

theorem c1_witness :
    ∃ h2 cp, wflowEx.statesGet hEx = some (h2, cp) ∧
      cp.map (readEntry h2) = wflowEx.wnet.states.map (readEntry hEx) ∧
      ∀ a ∈ addrsOf cp, ∀ v : TVal,
        wflowEx.wnet.states.map (readEntry (Heap.write h2 a v)) =
          wflowEx.wnet.states.map (readEntry hEx) :=
  c1_states_getter_independent_copy.1 hEx wflowEx (by decide) (by decide)

/-- C2 (counterexample): `FlowNetNoRecur` is a variant, its configured
encoder count is 2, yet after `reset_states()` reading the `states`
attribute raises `AttributeError` (the class defines no such property) —
it does not yield a sequence of absent entries. -/
theorem c2_counterexample :
    noRecurEx.num_encoders = KVal.i 2 ∧
    Model.readStates (Model.reset_states hEx (Model.flowNoRecur noRecurEx)).1
      (Model.reset_states hEx (Model.flowNoRecur noRecurEx)).2 = none := by
  exact ⟨rfl, rfl⟩

/-- C2 (amended): for each recurrent variant (`WFlowNet`, `FlowNet`,
`E2VIDRecurrent`) with at least one configured encoder, calling
`reset_states()` and then reading the `states` property yields the
all-absent sequence of length equal to the configured encoder count
(the non-recurrent variants `FlowNetNoRecur` and `EVFlowNet` expose no
`states` property at all). -/
theorem c2_reset_then_get :
    (∀ (h : Heap) (m : WFlowNet), 0 < m.wnet.num_encoders →
      m.reset_states.statesGet h =
        some (h, List.replicate m.wnet.num_encoders SE.absent)) ∧
    (∀ (h : Heap) (m : FlowNet), 0 < m.unetflow.num_encoders →
      m.reset_states.statesGet h =
        some (h, List.replicate m.unetflow.num_encoders SE.absent)) ∧
    (∀ (h : Heap) (m : E2VIDRecurrent), 0 < m.unetrecurrent.num_encoders →
      m.reset_states.statesGet h =
        some (h, List.replicate m.unetrecurrent.num_encoders SE.absent)) := by
  refine ⟨?_, ?_, ?_⟩ <;>
    · intro h m hn
      exact copy_states_replicate_absent h _ hn

theorem c2_witness :
    wflowEx.reset_states.statesGet hEx = some (hEx, List.replicate 1 SE.absent) ∧
    flownetEx.reset_states.statesGet hEx = some (hEx, List.replicate 1 SE.absent) ∧
    e2vidEx.reset_states.statesGet hEx = some (hEx, List.replicate 2 SE.absent) :=
  ⟨c2_reset_then_get.1 hEx wflowEx (by decide),
   c2_reset_then_get.2.1 hEx flownetEx (by decide),
   c2_reset_then_get.2.2 hEx e2vidEx (by decide)⟩

/-- C3: `copy_states` copies an all-absent state sequence via the
generic deep copy (which returns it unchanged, allocating nothing), and
copies a populated state sequence via the recursive clone, which
preserves the pair (LSTM) versus single-tensor (GRU) shape of each
entry, reads structurally equal, and shares no underlying storage with
the input. -/
theorem c3_copy_states_strategies :
    (∀ (h : Heap) (ss : List SE), ss ≠ [] → (∀ e ∈ ss, e = SE.absent) →
      copy_states h ss = some (deepcopy h ss) ∧ deepcopy h ss = (h, ss)) ∧
    (∀ (h : Heap) (ss : List SE), ss ≠ [] → (∀ e ∈ ss, e ≠ SE.absent) → WFStates h ss →
      copy_states h ss = recursive_clone h ss ∧
      ∃ h2 cp, recursive_clone h ss = some (h2, cp) ∧
        cp.map SE.kind = ss.map SE.kind ∧
        (∀ a ∈ addrsOf cp, a ∉ addrsOf ss) ∧
        cp.map (readEntry h2) = ss.map (readEntry h)) := by
  constructor
  · intro h ss hne habs
    refine ⟨copy_states_getok h ss ⟨hne, ?_⟩, deepcopy_all_absent h ss habs⟩
    cases ss with
    | nil => exact absurd rfl hne
    | cons e es =>
        left
        simp [habs e (by simp)]
  · intro h ss hne hpop hwf
    have hcs : copy_states h ss = recursive_clone h ss := by
      cases ss with
      | nil => exact absurd rfl hne
      | cons e es =>
          have he : e ≠ SE.absent := hpop e (by simp)
          simp [copy_states, he]
    refine ⟨hcs, (deepcopy h ss).1, (deepcopy h ss).2,
      recursive_clone_eq_deepcopy h ss hpop, deepcopy_kind h ss, ?_, deepcopy_read h ss hwf⟩
    intro a ha hmem
    exact absurd (hwf a hmem) (Nat.not_lt.mpr (deepcopy_addrs h ss a ha).1)

theorem c3_witness :
    (copy_states hEx [SE.absent, SE.absent] = some (deepcopy hEx [SE.absent, SE.absent]) ∧
      deepcopy hEx [SE.absent, SE.absent] = (hEx, [SE.absent, SE.absent])) ∧
    (copy_states hEx [SE.pair 0 1, SE.single 1] =
        recursive_clone hEx [SE.pair 0 1, SE.single 1] ∧
      ∃ h2 cp, recursive_clone hEx [SE.pair 0 1, SE.single 1] = some (h2, cp) ∧
        cp.map SE.kind = [SE.pair 0 1, SE.single 1].map SE.kind ∧
        (∀ a ∈ addrsOf cp, a ∉ addrsOf [SE.pair 0 1, SE.single 1]) ∧
        cp.map (readEntry h2) = [SE.pair 0 1, SE.single 1].map (readEntry hEx)) :=
  ⟨c3_copy_states_strategies.1 hEx [SE.absent, SE.absent] (by decide) (by decide),
   c3_copy_states_strategies.2 hEx [SE.pair 0 1, SE.single 1]
     (by decide) (by decide) (by decide)⟩

/-- C4: `EVFlowNet.forward`, for every 4-dimensional input tensor,
returns a dict with exactly the keys `flow` and `image` in that order,
where `flow` is the wrapped UNet's output unchanged and `image` is
`0 * flow[..., 0:1, :, :]`, an everywhere-zero tensor. -/
theorem c4_evflownet_forward_zero_image :
    ∀ (m : EVFlowNet) (x : Tensor), x.shape.length = 4 →
      (m.forward x).map Prod.fst = ["flow", "image"] ∧
      dictGet (m.forward x) "flow" = some (m.unet.forwardFun x) ∧
      dictGet (m.forward x) "image" = some (smul 0 (sliceChan01 (m.unet.forwardFun x))) ∧
      ∀ img, dictGet (m.forward x) "image" = some img → ∀ v ∈ img.data, v = 0 := by
  intro m x _
  refine ⟨rfl, ?_, ?_, ?_⟩
  · simp [EVFlowNet.forward, dictGet]
  · simp [EVFlowNet.forward, dictGet]
  · intro img himg v hv
    have himg2 : img = smul 0 (sliceChan01 (m.unet.forwardFun x)) := by
      simpa [EVFlowNet.forward, dictGet] using himg.symm
    subst himg2
    obtain ⟨w, _, hw⟩ := List.mem_map.mp hv
    rw [← hw, zero_mul]

theorem c4_witness :
    (evflowEx.forward tEx).map Prod.fst = ["flow", "image"] ∧
    dictGet (evflowEx.forward tEx) "flow" = some (evflowEx.unet.forwardFun tEx) ∧
    dictGet (evflowEx.forward tEx) "image" =
      some (smul 0 (sliceChan01 (evflowEx.unet.forwardFun tEx))) ∧
    ∀ img, dictGet (evflowEx.forward tEx) "image" = some img → ∀ v ∈ img.data, v = 0 :=
  c4_evflownet_forward_zero_image evflowEx tEx (by decide)

/-- C5: for every recurrent wrapper, the `states` setter replaces the
live state sequence wholesale with the provided one (any list, no
validation), and on a well-formed runnable sequence the subsequent
getter returns a structurally equal copy sharing no address with it;
setting that copy back installs it as the live state (set → get → set
round trip without aliasing). -/
theorem c5_states_setter_roundtrip :
    (∀ (m : WFlowNet) (ss : List SE), (m.statesSet ss).wnet.states = ss) ∧
    (∀ (m : FlowNet) (ss : List SE), (m.statesSet ss).unetflow.states = ss) ∧
    (∀ (m : E2VIDRecurrent) (ss : List SE), (m.statesSet ss).unetrecurrent.states = ss) ∧
    (∀ (h : Heap) (m : WFlowNet) (ss : List SE), WFStates h ss → GetOk ss →
      ∃ h2 cp, (m.statesSet ss).statesGet h = some (h2, cp) ∧
        cp.map (readEntry h2) = ss.map (readEntry h) ∧
        (∀ a ∈ addrsOf cp, a ∉ addrsOf ss) ∧
        ((m.statesSet ss).statesSet cp).wnet.states = cp) ∧
    (∀ (h : Heap) (m : FlowNet) (ss : List SE), WFStates h ss → GetOk ss →
      ∃ h2 cp, (m.statesSet ss).statesGet h = some (h2, cp) ∧
        cp.map (readEntry h2) = ss.map (readEntry h) ∧
        (∀ a ∈ addrsOf cp, a ∉ addrsOf ss) ∧
        ((m.statesSet ss).statesSet cp).unetflow.states = cp) ∧
    (∀ (h : Heap) (m : E2VIDRecurrent) (ss : List SE), WFStates h ss → GetOk ss →
      ∃ h2 cp, (m.statesSet ss).statesGet h = some (h2, cp) ∧
        cp.map (readEntry h2) = ss.map (readEntry h) ∧
        (∀ a ∈ addrsOf cp, a ∉ addrsOf ss) ∧
        ((m.statesSet ss).statesSet cp).unetrecurrent.states = cp) := by
  refine ⟨fun m ss => rfl, fun m ss => rfl, fun m ss => rfl, ?_, ?_, ?_⟩ <;>
    · intro h m ss hwf hok
      obtain ⟨h2, cp, hcs, hread, _, hdisj, _⟩ := copy_states_spec h ss hwf hok
      exact ⟨h2, cp, hcs, hread, hdisj, rfl⟩

theorem c5_witness :
    ∃ h2 cp, (wflowEx.statesSet [SE.single 0]).statesGet hEx = some (h2, cp) ∧
      cp.map (readEntry h2) = [SE.single 0].map (readEntry hEx) ∧
      (∀ a ∈ addrsOf cp, a ∉ addrsOf [SE.single 0]) ∧
      ((wflowEx.statesSet [SE.single 0]).statesSet cp).wnet.states = cp :=
  c5_states_setter_roundtrip.2.2.2.1 hEx wflowEx [SE.single 0] (by decide) (by decide)

/-- C6: `FlowNetNoRecur.reset_states()` and `EVFlowNet.reset_states()`
are `pass`: they never fail, allocate nothing on the heap, and return
the model unchanged. -/
theorem c6_nonrecurrent_reset_noop :
    ∀ (h : Heap) (m1 : FlowNetNoRecur) (m2 : EVFlowNet),
      m1.reset_states h = (h, m1) ∧ m2.reset_states h = (h, m2) :=
  fun _ _ _ => ⟨rfl, rfl⟩

theorem hasNHW_of_shape {N H W c : Nat} {t : Tensor} (ht : t.shape = [N, c, H, W]) :
    hasNHW N H W t := by
  refine ⟨?_, ?_, ?_, ?_⟩ <;> simp [ht]

/-- C7: for every variant, `forward` on a shape-consistent
4-dimensional `N x C x H x W` input returns a dict whose documented
keys carry tensors with batch dimension `N` and spatial dimensions
`H x W`: the four delegating wrappers return the wrapped component's
dict unchanged (which satisfies that contract by the wrapped network's
specification), and `EVFlowNet` returns `flow` of shape `N x 2 x H x W`
unchanged from its UNet together with an `image` of shape
`N x 1 x H x W`. -/
theorem c7_forward_shapes :
    ∀ (x : Tensor) (N C H W : Nat), x.shape = [N, C, H, W] →
      (∀ m : WFlowNet, dictNHW N H W (m.wnet.forwardFun x) →
        dictNHW N H W (m.forward x)) ∧
      (∀ m : FlowNet, dictNHW N H W (m.unetflow.forwardFun x) →
        dictNHW N H W (m.forward x)) ∧
      (∀ m : FlowNetNoRecur, dictNHW N H W (m.unetflow.forwardFun x) →
        dictNHW N H W (m.forward x)) ∧
      (∀ m : E2VIDRecurrent, dictNHW N H W (m.unetrecurrent.forwardFun x) →
        dictNHW N H W (m.forward x)) ∧
      (∀ m : EVFlowNet, (m.unet.forwardFun x).shape = [N, 2, H, W] →
        dictGet (m.forward x) "flow" = some (m.unet.forwardFun x) ∧
        (∃ img, dictGet (m.forward x) "image" = some img ∧ img.shape = [N, 1, H, W]) ∧
        dictNHW N H W (m.forward x)) := by
  intro x N C H W hx
  refine ⟨fun m hm => hm, fun m hm => hm, fun m hm => hm, fun m hm => hm, ?_⟩
  intro m hf
  have himg : (smul 0 (sliceChan01 (m.unet.forwardFun x))).shape = [N, 1, H, W] := by
    simp [smul, sliceChan01, hf]
  refine ⟨by simp [EVFlowNet.forward, dictGet],
    ⟨smul 0 (sliceChan01 (m.unet.forwardFun x)), by simp [EVFlowNet.forward, dictGet], himg⟩,
    ?_, ?_⟩
  · right
    simp [EVFlowNet.forward, dictGet]
  · intro kv hkv
    simp only [EVFlowNet.forward, List.mem_cons, List.not_mem_nil, or_false] at hkv
    rcases hkv with rfl | rfl
    · exact hasNHW_of_shape hf
    · exact hasNHW_of_shape himg

theorem c7_witness :
    dictGet (evflowEx.forward tEx) "flow" = some (evflowEx.unet.forwardFun tEx) ∧
    (∃ img, dictGet (evflowEx.forward tEx) "image" = some img ∧ img.shape = [1, 1, 2, 2]) ∧
    dictNHW 1 2 2 (evflowEx.forward tEx) :=
  (c7_forward_shapes tEx 1 3 2 2 (by decide)).2.2.2.2 evflowEx (by decide)

/-- C8: `EVFlowNet.__init__` mutates the caller's `unet_kwargs` dict in
place, overwriting the nine hardcoded keys (among them
`num_encoders = 4` and `num_output_channels = 2`); the constructed
model's `num_encoders` is 4 regardless of any caller-supplied value,
and for each of the nine keys whose original value differed from the
hardcoded one, the caller's dict no longer holds its original value. -/
theorem c8_evflownet_init_overwrites_kwargs :
    ∀ (mkUnet : Kwargs → UNet) (kw : Kwargs), kw "num_bins" ≠ none →
      ∃ m, EVFlowNet.init mkUnet kw = some (dictUpdate kw EVFlowNet_kwargs, m) ∧
        m.num_encoders = KVal.i 4 ∧
        (∃ nb, kw "num_bins" = some nb ∧ m.num_bins = nb) ∧
        (∀ p ∈ EVFlowNet_kwargs, dictUpdate kw EVFlowNet_kwargs p.1 = some p.2) ∧
        (∀ p ∈ EVFlowNet_kwargs, kw p.1 ≠ some p.2 →
          dictUpdate kw EVFlowNet_kwargs p.1 ≠ kw p.1) := by
  intro mkUnet kw hnb
  have hbins : dictUpdate kw EVFlowNet_kwargs "num_bins" = kw "num_bins" := rfl
  have hlook : ∀ p ∈ EVFlowNet_kwargs, dictUpdate kw EVFlowNet_kwargs p.1 = some p.2 := by
    intro p hp
    simp only [EVFlowNet_kwargs, List.mem_cons, List.not_mem_nil, or_false] at hp
    rcases hp with rfl | rfl | rfl | rfl | rfl | rfl | rfl | rfl | rfl <;> rfl
  cases hkb : kw "num_bins" with
  | none => exact absurd hkb hnb
  | some nb =>
      have henc : dictUpdate kw EVFlowNet_kwargs "num_encoders" = some (KVal.i 4) := rfl
      have hinit : EVFlowNet.init mkUnet kw =
          some (dictUpdate kw EVFlowNet_kwargs,
            ⟨nb, KVal.i 4, mkUnet (dictUpdate kw EVFlowNet_kwargs)⟩) := by
        simp only [EVFlowNet.init]
        rw [hbins, hkb, henc]
      exact ⟨⟨nb, KVal.i 4, mkUnet (dictUpdate kw EVFlowNet_kwargs)⟩, hinit, rfl,
        ⟨nb, rfl, rfl⟩, hlook, fun p hp hdiff heq => hdiff (heq ▸ hlook p hp)⟩

theorem c8_witness :
    ∃ m, EVFlowNet.init (fun _ => unetEx) kwEx = some (dictUpdate kwEx EVFlowNet_kwargs, m) ∧
      m.num_encoders = KVal.i 4 ∧
      (∃ nb, kwEx "num_bins" = some nb ∧ m.num_bins = nb) ∧
      (∀ p ∈ EVFlowNet_kwargs, dictUpdate kwEx EVFlowNet_kwargs p.1 = some p.2) ∧
      (∀ p ∈ EVFlowNet_kwargs, kwEx p.1 ≠ some p.2 →
        dictUpdate kwEx EVFlowNet_kwargs p.1 ≠ kwEx p.1) :=
  c8_evflownet_init_overwrites_kwargs (fun _ => unetEx) kwEx (by decide)

/-- C9: `copy_states` applied to an empty sequence fails (`states[0]`
raises `IndexError`), so the `states` getter of every recurrent wrapper
fails whenever the live state sequence is empty. -/
theorem c9_empty_states_getter_fails :
    (∀ h : Heap, copy_states h [] = none) ∧
    (∀ (h : Heap) (m : WFlowNet), m.wnet.states = [] → m.statesGet h = none) ∧
    (∀ (h : Heap) (m : FlowNet), m.unetflow.states = [] → m.statesGet h = none) ∧
    (∀ (h : Heap) (m : E2VIDRecurrent), m.unetrecurrent.states = [] →
      m.statesGet h = none) := by
  refine ⟨fun h => rfl, ?_, ?_, ?_⟩ <;>
    · intro h m hm
      simp [WFlowNet.statesGet, FlowNet.statesGet, E2VIDRecurrent.statesGet, hm, copy_states]

theorem c9_witness :
    copy_states hEx [] = none ∧
    wflowEmptyEx.statesGet hEx = none ∧
    flownetEmptyEx.statesGet hEx = none ∧
    e2vidEmptyEx.statesGet hEx = none :=
  ⟨c9_empty_states_getter_fails.1 hEx,
   c9_empty_states_getter_fails.2.1 hEx wflowEmptyEx rfl,
   c9_empty_states_getter_fails.2.2.1 hEx flownetEmptyEx rfl,
   c9_empty_states_getter_fails.2.2.2 hEx e2vidEmptyEx rfl⟩

/-- C10: `copy_states` dispatches on the first entry alone: whenever the
head is `None` the whole sequence goes to the generic deep copy
(whatever the later entries are), and whenever the head is a tensor or
a tensor pair the whole sequence goes to `recursive_clone` (whatever
the later entries are). -/
theorem c10_copy_states_dispatch_on_head :
    ∀ (h : Heap) (e : SE) (es : List SE),
      (e = SE.absent → copy_states h (e :: es) = some (deepcopy h (e :: es))) ∧
      (e ≠ SE.absent → copy_states h (e :: es) = recursive_clone h (e :: es)) := by
  intro h e es
  constructor
  · intro he
    simp [copy_states, he]
  · intro he
    simp [copy_states, he]

theorem c10_witness :
    copy_states hEx [SE.absent, SE.single 0] = some (deepcopy hEx [SE.absent, SE.single 0]) ∧
    copy_states hEx [SE.single 0, SE.absent] = recursive_clone hEx [SE.single 0, SE.absent] :=
  ⟨(c10_copy_states_dispatch_on_head hEx SE.absent [SE.single 0]).1 rfl,
   (c10_copy_states_dispatch_on_head hEx (SE.single 0) [SE.absent]).2 (by decide)⟩

end EventCnn
